import Mathlib

set_option exponentiation.threshold 4000

set_option maxRecDepth 16000

/-!
Verification of the Anna's Archive search plugin
(`src/config/plugins/search/annas_archive.py`).

The plugin's text processing is embedded shallowly over `List Char`:

* `get_text(strip=True)` / `get_text(" ", strip=True)` on a node are modelled
  as `pyStrip` applied to the node's stored raw text (BeautifulSoup strips the
  text at both ends; internal whitespace of a text node is preserved, which
  the model keeps by letting the stored raw text be arbitrary).
* Each Python regular expression used by the plugin is modelled by a
  dedicated scanner that reproduces `re.search` / `re.match` semantics
  (leftmost position, greedy quantifiers, alternation order, word
  boundaries) for exactly that pattern, over ASCII text.
* Python `float` applied to a group captured by `[\d.]+` is modelled in
  two stages: `decimalNumDen` extracts the numeral's exact value as a
  numerator/denominator pair (`none` marks the inputs on which `float`
  raises `ValueError`), and `floatOfNumDen` rounds that value to the
  nearest IEEE-754 binary64 (ties to even, subnormal and overflow range
  included), which is what CPython's correctly-rounded `float()` computes.
* A parsed search-results document is modelled as the list of its anchor
  elements (with `href`), in document order, which is what
  `soup.find_all('a', href=...)` iterates over.
-/

/-- Whitespace as recognised by Python's `str.strip()` and the regex class
`\s` (ASCII range). -/
def isPySpace (c : Char) : Bool :=
  c = ' ' || c = '\t' || c = '\n' || c = '\r' || c = '\x0b' || c = '\x0c'

/-- Word characters of the regex class `\w` / the boundary assertion `\b`
(ASCII range). -/
def wordChar (c : Char) : Bool :=
  c.isAlpha || c.isDigit || c = '_'

/-- Characters matched by the regex class `[\d.]`. -/
def isDigitDot (c : Char) : Bool :=
  c.isDigit || c = '.'

/-- Characters matched by the regex class `[a-f0-9]`. -/
def isHexLower (c : Char) : Bool :=
  c.isDigit || ('a' ≤ c && c ≤ 'f')

/-- Case-insensitive character comparison, as used by the `re.I` flag. -/
def ciEqC (a b : Char) : Bool :=
  a.toLower = b.toLower

/-- Python's `str.strip()`: remove whitespace from both ends. -/
def pyStrip (s : List Char) : List Char :=
  ((s.dropWhile isPySpace).reverse.dropWhile isPySpace).reverse

/-- Python's `str.strip(cs)` for an explicit character set `cs`. -/
def stripChars (cs : List Char) (s : List Char) : List Char :=
  ((s.dropWhile (· ∈ cs)).reverse.dropWhile (· ∈ cs)).reverse

/-- Does `s` start with `pat` (case-sensitive)? -/
def startsWith : List Char → List Char → Bool
  | [], _ => true
  | _ :: _, [] => false
  | p :: ps, c :: cs => p = c && startsWith ps cs

/-- Python's `pat in s` substring test. -/
def containsSub (pat : List Char) : List Char → Bool
  | [] => startsWith pat []
  | c :: rest => startsWith pat (c :: rest) || containsSub pat rest

/-- Split a character list at every `'.'` (used to model `float` parsing of a
string captured by `[\d.]+`). -/
def splitDot : List Char → List (List Char)
  | [] => [[]]
  | '.' :: rest => [] :: splitDot rest
  | c :: rest =>
    match splitDot rest with
    | [] => [[c]]
    | p :: ps => (c :: p) :: ps

/-- Value of a string of decimal digits. -/
def natOfDigits (s : List Char) : Nat :=
  s.foldl (fun acc c => 10 * acc + (c.toNat - '0'.toNat)) 0

/-- The exact value of a string drawn from the class `[\d.]+`, as a
numerator/denominator pair `(a, d)` with value `a / d` (`d` is the power of
ten given by the fractional digits): `some` when the string is a valid
decimal numeral (at most one dot, at least one digit), `none` when `float`
raises `ValueError` on it (e.g. on `"."` or `"2..5"`).  The rounding that
`float()` then performs is modelled separately by `floatOfNumDen`. -/
def decimalNumDen (s : List Char) : Option (Nat × Nat) :=
  match splitDot s with
  | [ip] =>
    if ip = [] ∨ ¬ ip.all Char.isDigit then none
    else some (natOfDigits ip, 1)
  | [ip, fp] =>
    if (ip = [] ∧ fp = []) ∨ ¬ ip.all Char.isDigit ∨ ¬ fp.all Char.isDigit then none
    else some (natOfDigits ip * 10 ^ fp.length + natOfDigits fp, 10 ^ fp.length)
  | _ => none

/-- Number of binary digits of `n` (`0` for `n = 0`), computed with an
explicit fuel argument so that it reduces inside the kernel. -/
def bitLenFuel : Nat → Nat → Nat
  | 0, _ => 0
  | fuel + 1, n => if n = 0 then 0 else bitLenFuel fuel (n / 2) + 1

/-- `bitLen n` is the bit length of `n`: `2 ^ (bitLen n - 1) ≤ n < 2 ^ bitLen n`
for `n ≥ 1`. -/
def bitLen (n : Nat) : Nat := bitLenFuel n n

/-- Round the rational `n / dd` (`dd ≠ 0`) to the nearest integer, ties to
even — the IEEE-754 default rounding used by `float()`. -/
def rndHalfEven (n dd : Nat) : Nat :=
  let q := n / dd
  let r := n % dd
  if dd < 2 * r then q + 1
  else if 2 * r < dd then q
  else if q % 2 = 0 then q else q + 1

/-- CPython's `float()` on the exact numeral value `a / d`: the nearest
IEEE-754 binary64 value, ties to even (CPython's conversion is correctly
rounded).  The result is the pair `(M, ep)` encoding the double
`M * 2 ^ (ep - 1074)` (for normal values `2 ^ 52 ≤ M < 2 ^ 53`; subnormals
have `ep = 0`); `none` is the overflow range, where `float()` yields `inf`
and the later `int()` raises `OverflowError`. -/
def floatOfNumDen (a d : Nat) : Option (Nat × Nat) :=
  if a = 0 then some (0, 1074)
  else
    let g : Int := (bitLen a : Int) - (bitLen d : Int)
    -- binade of a / d: the unique E with 2 ^ E ≤ a / d < 2 ^ (E + 1) is g or g - 1
    let ge : Bool := if 0 ≤ g then d * 2 ^ g.toNat ≤ a else d ≤ a * 2 ^ (-g).toNat
    let E : Int := if ge then g else g - 1
    -- unit in the last place, clamped at the subnormal range
    let p : Int := max (E - 52) (-1074)
    let nd : Nat × Nat := if 0 ≤ p then (a, d * 2 ^ p.toNat) else (a * 2 ^ (-p).toNat, d)
    let M := rndHalfEven nd.1 nd.2
    -- rounding up to the next binade keeps the value representable
    let Mp : Nat × Int := if M = 2 ^ 53 then (2 ^ 52, p + 1) else (M, p)
    if 0 ≤ Mp.2 ∧ 2 ^ 1024 ≤ Mp.1 * 2 ^ Mp.2.toNat then none
    else some (Mp.1, (Mp.2 + 1074).toNat)

example : floatOfNumDen 25 10 = some (5629499534213120, 1023) := by rfl
example : floatOfNumDen 1999999999999999999 (10 ^ 18) = some (4503599627370496, 1023) := by rfl
example : floatOfNumDen 1 10 = some (7205759403792794, 1018) := by rfl
example : floatOfNumDen 1 1 = some (4503599627370496, 1022) := by rfl
example : floatOfNumDen 10 1 = some (5629499534213120, 1025) := by rfl
example : floatOfNumDen 175 100 = some (7881299347898368, 1022) := by rfl
example : floatOfNumDen 123456 1000 = some (8687443681197687, 1028) := by rfl
example : floatOfNumDen 1 (10 ^ 6) = some (4722366482869645, 1002) := by rfl
example : floatOfNumDen 314159265358979 (10 ^ 14) = some (7074237752028433, 1023) := by rfl
example : floatOfNumDen 9999999999999999999995 10 = some (7629394531250000, 1091) := by rfl
example : floatOfNumDen 30000000000000004 (10 ^ 17) = some (5404319552844596, 1020) := by rfl

/-- The matched size unit, uppercased: the byte-multiplier table
`{'B': 1, 'KB': 1024, 'MB': 1024*1024, 'GB': 1024*1024*1024}` with the
`.get(unit, 1)` default of `_convert_size_to_bytes`. -/
def multOf (u : List Char) : Nat :=
  if u = ['B'] then 1
  else if u = ['K', 'B'] then 1024
  else if u = ['M', 'B'] then 1024 * 1024
  else if u = ['G', 'B'] then 1024 * 1024 * 1024
  else 1

/-- The alternation `(MB|KB|GB|B)` (case-insensitive, alternatives tried in
this order) matched at the head of `s`, returning the matched text. -/
def unitAt : List Char → Option (List Char)
  | [] => none
  | [c] => if ciEqC c 'B' then some [c] else none
  | c1 :: c2 :: _ =>
    if ciEqC c1 'M' && ciEqC c2 'B' then some [c1, c2]
    else if ciEqC c1 'K' && ciEqC c2 'B' then some [c1, c2]
    else if ciEqC c1 'G' && ciEqC c2 'B' then some [c1, c2]
    else if ciEqC c1 'B' then some [c1]
    else none

/-- `re.match(r'([\d.]+)\s*(MB|KB|GB|B)', s, re.I)`: the two captured groups,
or `none` when the pattern does not match at the start of `s`.  Backtracking
never changes the outcome for this pattern: shrinking `[\d.]+` leaves a digit
or dot where the unit must start, and shrinking `\s*` leaves whitespace
there, so the greedy scan below is exact. -/
def matchSizeStart (s : List Char) : Option (List Char × List Char) :=
  let num := s.takeWhile isDigitDot
  if num = [] then none
  else
    let r1 := s.drop num.length
    let r2 := r1.drop (r1.takeWhile isPySpace).length
    (unitAt r2).map (fun u => (num, u))

/-- `_convert_size_to_bytes` of the plugin.  Returns `Except.error` on the
inputs where the Python function raises: `float` applied to a captured group
that is not a valid numeral (`ValueError`), or `int` applied to an infinite
product (`OverflowError`).  Otherwise `Except.ok` of the returned string:
`value` is the double `M * 2 ^ (ep - 1074)` produced by `float()`; the
multiplier is a power of two, so `value * multiplier` is the exact double
`M * mult * 2 ^ (ep - 1074)` unless it leaves the finite range; and
`int(...)` truncates toward zero, which on this non-negative dyadic value is
the natural-number division `M * mult * 2 ^ ep / 2 ^ 1074`. -/
def convert_size_to_bytes (s : List Char) : Except (List Char) (List Char) :=
  if s = [] then .ok ['0']
  else
    match matchSizeStart s with
    | none => .ok ['0']
    | some (numStr, unitStr) =>
      match decimalNumDen numStr with
      | none => .error ("ValueError".toList)
      | some (a, d) =>
        match floatOfNumDen a d with
        | none => .error ("OverflowError".toList)
        | some (M, ep) =>
          let prod := M * multOf (unitStr.map Char.toUpper)
          if 2 ^ 2098 ≤ prod * 2 ^ ep then .error ("OverflowError".toList)
          else .ok (toString (prod * 2 ^ ep / 2 ^ 1074)).toList

example : convert_size_to_bytes ("2.5MB".toList) = .ok ("2621440".toList) := by rfl
example : convert_size_to_bytes ("".toList) = .ok ("0".toList) := by rfl
example : convert_size_to_bytes ("garbage".toList) = .ok ("0".toList) := by rfl
example : convert_size_to_bytes (".MB".toList) = .error ("ValueError".toList) := by rfl
example : convert_size_to_bytes ("10 kb".toList) = .ok ("10240".toList) := by rfl
example : convert_size_to_bytes ("3B".toList) = .ok ("3".toList) := by rfl
example : convert_size_to_bytes ("1.75GB".toList) = .ok ("1879048192".toList) := by rfl
example : convert_size_to_bytes ("0.1MB".toList) = .ok ("104857".toList) := by rfl
example : convert_size_to_bytes ("123.456KB".toList) = .ok ("126418".toList) := by rfl
example : convert_size_to_bytes ("3.14159265358979GB".toList) = .ok ("3373259426".toList) := by rfl
example : convert_size_to_bytes ("999999999999999999999.5GB".toList)
    = .ok ("1073741824000000000000000000000".toList) := by rfl

/-- Case-insensitive literal match at the head of `s`: `some (m, rest)` when
`s = m ++ rest` and `m` equals `pat` up to case, returning the text `m` as it
occurs in `s` (which is what a regex capture group returns). -/
def ciTake : List Char → List Char → Option (List Char × List Char)
  | [], s => some ([], s)
  | _ :: _, [] => none
  | p :: ps, c :: cs =>
    if c.toLower = p.toLower then
      (ciTake ps cs).map (fun pr => (c :: pr.1, pr.2))
    else none

/-- The trailing word-boundary `\b` after a match ending in a word
character: holds at end of input or before a non-word character. -/
def boundaryB : List Char → Bool
  | [] => true
  | c :: _ => ! wordChar c

/-- One alternation step of `\b(alt1|alt2|...)\b` at a fixed position:
alternatives are tried in order; an alternative whose text matches but whose
trailing boundary fails causes backtracking into the next alternative, as in
the `re` engine.  (Every alternative starts with a word character, so the
leading `\b` is checked by the caller.) -/
def tryAltsAt (alts : List (List Char)) (s : List Char) : Option (List Char) :=
  match alts with
  | [] => none
  | alt :: more =>
    match ciTake alt s with
    | some (m, rest) => if boundaryB rest then some m else tryAltsAt more s
    | none => tryAltsAt more s

/-- Left-to-right scan for `\b(alt1|alt2|...)\b` (case-insensitive): `prev`
is the character before the current position (`none` at the start), used for
the leading word boundary.  Returns the first (leftmost) matched text. -/
def altScan (alts : List (List Char)) : Option Char → List Char → Option (List Char)
  | _, [] => none
  | prev, c :: rest =>
    if (match prev with | none => true | some p => ! wordChar p) then
      match tryAltsAt alts (c :: rest) with
      | some m => some m
      | none => altScan alts (some c) rest
    else altScan alts (some c) rest

/-- The enumerated language alternatives of the `lang_match` regex, in
alternation order. -/
def languageNames : List (List Char) :=
  [("English".toList), ("Spanish".toList), ("French".toList), ("German".toList),
   ("Italian".toList), ("Portuguese".toList), ("Dutch".toList), ("Russian".toList),
   ("Japanese".toList), ("Chinese".toList)]

/-- The enumerated format alternatives of the `format_match` regex, in
alternation order. -/
def formatNames : List (List Char) :=
  [("epub".toList), ("pdf".toList), ("mobi".toList), ("azw3".toList),
   ("djvu".toList), ("txt".toList)]

/-- `re.search(r'\b(English|...|Chinese)\b', ctx, re.I)`, returning the
matched text as it occurs in `ctx`. -/
def langSearch (ctx : List Char) : Option (List Char) :=
  altScan languageNames none ctx

/-- `re.search(r'\b(epub|pdf|mobi|azw3|djvu|txt)\b', ctx, re.I)`, returning
the matched text as it occurs in `ctx`. -/
def formatSearch (ctx : List Char) : Option (List Char) :=
  altScan formatNames none ctx

/-- The alternation `(MB|KB|GB|B)\b` (case-insensitive) at the head of `s`:
an alternative whose trailing boundary fails backtracks into the next one. -/
def unitAtB : List Char → Option (List Char)
  | [] => none
  | [c] => if ciEqC c 'B' then some [c] else none
  | c1 :: c2 :: rest =>
    if ciEqC c1 'M' && ciEqC c2 'B' && boundaryB rest then some [c1, c2]
    else if ciEqC c1 'K' && ciEqC c2 'B' && boundaryB rest then some [c1, c2]
    else if ciEqC c1 'G' && ciEqC c2 'B' && boundaryB rest then some [c1, c2]
    else if ciEqC c1 'B' && boundaryB (c2 :: rest) then some [c1]
    else none

/-- `r'([\d.]+)\s*(MB|KB|GB|B)\b'` matched at the current position: both
captured groups, or `none`.  As for `matchSizeStart`, shrinking the greedy
`[\d.]+` or `\s*` can never lead to a match, so no further backtracking is
modelled. -/
def sizeAt (s : List Char) : Option (List Char × List Char) :=
  let num := s.takeWhile isDigitDot
  if num = [] then none
  else
    let r1 := s.drop num.length
    let r2 := r1.drop (r1.takeWhile isPySpace).length
    (unitAtB r2).map (fun u => (num, u))

/-- `re.search(r'([\d.]+)\s*(MB|KB|GB|B)\b', ctx, re.I)`: leftmost match. -/
def sizeSearch : List Char → Option (List Char × List Char)
  | [] => none
  | c :: rest =>
    match sizeAt (c :: rest) with
    | some r => some r
    | none => sizeSearch rest

/-- The group `([^|,\n\r]+)` of the author regex after `by\s+`, where the
greedy `\s+` has consumed `k` whitespace characters of `rest` and backtracks
down to one character until the group can match at least one character.
A whitespace character released by `\s+` can itself be matched by the group
(`' '` and `'\t'` are in the class; `'\n'` and `'\r'` are not). -/
def authorGroup (rest : List Char) : Nat → Option (List Char)
  | 0 => none
  | k + 1 =>
    let g := (rest.drop (k + 1)).takeWhile (fun c => !(c = '|' || c = ',' || c = '\n' || c = '\r'))
    if g = [] then authorGroup rest k else some g

/-- `r'\bby\s+([^|,\n\r]+)'` matched at the current position (the leading
`\b` is checked by the caller): the captured group, or `none`. -/
def authorAt (s : List Char) : Option (List Char) :=
  match ciTake ("by".toList) s with
  | none => none
  | some (_, rest) =>
    let w := (rest.takeWhile isPySpace).length
    if w = 0 then none else authorGroup rest w

/-- Left-to-right scan for `re.search(r'\bby\s+([^|,\n\r]+)', ctx, re.I)`. -/
def authorScan : Option Char → List Char → Option (List Char)
  | _, [] => none
  | prev, c :: rest =>
    if (match prev with | none => true | some p => ! wordChar p) then
      match authorAt (c :: rest) with
      | some g => some g
      | none => authorScan (some c) rest
    else authorScan (some c) rest

/-- `re.search(r'\bby\s+([^|,\n\r]+)', ctx, re.I)`: the captured group of the
leftmost match. -/
def authorSearch (ctx : List Char) : Option (List Char) :=
  authorScan none ctx

/-- The literal `'/md5/'` tested by `'/md5/' not in href` and anchoring the
identifier regex. -/
def md5Marker : List Char := "/md5/".toList

/-- `r'/md5/([a-f0-9]+)'` matched at the current position: the captured
hex-identifier group (greedy, hence maximal), or `none`. -/
def md5At (s : List Char) : Option (List Char) :=
  if startsWith md5Marker s then
    let run := (s.drop 5).takeWhile isHexLower
    if run = [] then none else some run
  else none

/-- `re.search(r'/md5/([a-f0-9]+)', href)`: the captured group of the
leftmost match.  The same pattern (without the group) is the `href` filter
of `soup.find_all`, where only matching/non-matching matters. -/
def findMd5 : List Char → Option (List Char)
  | [] => none
  | c :: rest =>
    match md5At (c :: rest) with
    | some r => some r
    | none => findMd5 rest

example : langSearch ("the english book".toList) = some ("english".toList) := by rfl
example : langSearch ("EnglishX Spanish".toList) = some ("Spanish".toList) := by rfl
example : formatSearch ("x EPUB y".toList) = some ("EPUB".toList) := by rfl
example : sizeSearch ("junk 2..5 MB".toList) = some ("2..5".toList, "MB".toList) := by rfl
example : sizeSearch ("2.5MBx".toList) = none := by rfl
example : authorSearch ("Great Book by  - Jane Doe, 2020".toList)
    = some ("- Jane Doe".toList) := by rfl
example : authorSearch ("xby Jane".toList) = none := by rfl
example : findMd5 ("/md5//md5/ab".toList) = some ("ab".toList) := by rfl
example : findMd5 ("https://x/md5/ABC".toList) = none := by rfl

example : sizeSearch ("2.5BB".toList) = none := by rfl
example : sizeSearch ("12.5 6 MB".toList) = some ("6".toList, "MB".toList) := by rfl
example : authorSearch ("by  |x".toList) = some (" ".toList) := by rfl
example : authorSearch ("a BY \n Jane | z".toList) = some ("Jane ".toList) := by rfl
example : langSearch ("5Dutch dutch".toList) = some ("dutch".toList) := by rfl

/-- The container element chosen for an anchor:
`link.find_parent(['article', 'li', 'div']) or link.parent`.  `text` is its
raw text content (`get_text(" ", strip=True)` is modelled as `pyStrip text`);
`heading` is the raw text of `container.find(['h1','h2','h3','strong'])`, or
`none` when no such descendant exists. -/
structure Container where
  text : List Char
  heading : Option (List Char)
deriving DecidableEq, Repr

/-- An anchor element returned by `soup.find_all('a', href=...)`: its `href`
attribute, its raw text content (`get_text(strip=True)` is modelled as
`pyStrip text`), and its chosen container (`none` models an anchor with no
parent element at all). -/
structure Anchor where
  href : List Char
  text : List Char
  container : Option Container
deriving DecidableEq, Repr

/-- The intermediate book dictionary built by `_parse_search_results`:
`link`, `title` and `md5` are always present; the four metadata fields are
present only when their regex matched. -/
structure Book where
  link : List Char
  title : List Char
  md5 : List Char
  author : Option (List Char)
  extension : Option (List Char)
  size : Option (List Char)
  language : Option (List Char)
deriving DecidableEq, Repr

/-- `BASE_URL` of the plugin class. -/
def BASE_URL : List Char := "https://annas-archive.org".toList

/-- `context_text`: the container's stripped text, falling back to the
anchor's own text when there is no container. -/
def contextOf (a : Anchor) : List Char :=
  match a.container with
  | some c => pyStrip c.text
  | none => pyStrip a.text

/-- The title derivation of `_parse_search_results`: the anchor's stripped
text; if empty and a container exists, the first heading-like descendant's
stripped text; if still empty and a container exists, the first 200
characters of the context text. -/
def deriveTitle (a : Anchor) : List Char :=
  let t0 := pyStrip a.text
  match a.container with
  | none => t0
  | some c =>
    let t1 :=
      if t0 = [] then
        match c.heading with
        | some h => pyStrip h
        | none => t0
      else t0
    if t1 = [] then (pyStrip c.text).take 200 else t1

/-- The book dictionary assembled for one accepted candidate: the absolute
link (`BASE_URL` prefixed when `href` starts with `'/'`), the derived title,
the md5 identifier, and the four optional metadata fields extracted from the
context text. -/
def buildBook (a : Anchor) (md5 : List Char) (title : List Char) : Book :=
  let ctx := contextOf a
  { link := if startsWith ['/'] a.href then BASE_URL ++ a.href else a.href
    title := title
    md5 := md5
    author := (authorSearch ctx).map (stripChars [' ', '-'])
    extension := (formatSearch ctx).map (List.map Char.toLower)
    size := (sizeSearch ctx).map (fun pr => pr.1 ++ pr.2)
    language := langSearch ctx }

/-- Outcome of the loop body of `_parse_search_results` for one anchor:
`skip` = a `continue` before the md5 is recorded, `mark m` = the md5 `m` is
recorded in `seen_md5` but the candidate is discarded by the title check,
`keep m bk` = the md5 is recorded and the book `bk` is appended. -/
inductive StepRes where
  | skip : StepRes
  | mark : List Char → StepRes
  | keep : List Char → Book → StepRes
deriving DecidableEq, Repr

/-- The loop body of `_parse_search_results` for one anchor, given the
current `seen_md5` set. -/
def anchorStep (seen : List (List Char)) (a : Anchor) : StepRes :=
  if a.href = [] ∨ containsSub md5Marker a.href = false then .skip
  else
    match findMd5 a.href with
    | none => .skip
    | some m =>
      if m ∈ seen then .skip
      else
        let t := deriveTitle a
        if t = [] ∨ t.length < 3 then .mark m
        else .keep m (buildBook a m t)

/-- The loop of `_parse_search_results`: iterate the anchors, threading the
`seen_md5` set and the accumulated `books`, breaking once 25 books have been
appended. -/
def goParse : List Anchor → List (List Char) → List Book → List Book
  | [], _, books => books
  | a :: rest, seen, books =>
    match anchorStep seen a with
    | .skip => goParse rest seen books
    | .mark m => goParse rest (m :: seen) books
    | .keep m bk =>
      let books2 := books ++ [bk]
      if 25 ≤ books2.length then books2 else goParse rest (m :: seen) books2

/-- `_parse_search_results`: the document is given as its anchor list; the
`soup.find_all('a', href=re.compile(r'/md5/[a-f0-9]+'))` filter keeps the
anchors whose href the pattern matches. -/
def parse_search_results (doc : List Anchor) : List Book :=
  goParse (doc.filter (fun a => (findMd5 a.href).isSome)) [] []

/-- The standardized result entry built by `_convert_results`. -/
structure Entry where
  link : List Char
  title : List Char
  description : List Char
  guid : List Char
  comments : List Char
  files : List Char
  size : List Char
  category : List Char
  grabs : List Char
  prefixTag : List Char
  author : List Char
  book_title : List Char
  language : List Char
  format : List Char
  pub_ts : Option (List Char)
deriving DecidableEq, Repr

/-- The loop body of `_convert_results` for one book: `none` models the
`except` branch (the only raising operation is `_convert_size_to_bytes` on a
malformed size token), in which case the record is dropped. -/
def convertBook (cat : List Char) (b : Book) : Option Entry :=
  let author := b.author.getD ("Unknown".toList)
  let fmt := (b.extension.getD []).map Char.toUpper
  let sizeStr := b.size.getD ("0MB".toList)
  let lang := b.language.getD ("Unknown".toList)
  match convert_size_to_bytes sizeStr with
  | .error _ => none
  | .ok sizeB =>
    let ctitle := b.title ++ (" - ".toList) ++ author ++
      (if fmt = [] then [] else (" (".toList) ++ fmt ++ (")".toList))
    let descParts := [b.title, author] ++
      (if lang = [] then [] else [lang]) ++
      (if fmt = [] then [] else [fmt])
    some
      { link := b.link
        title := ctitle
        description := List.intercalate (" | ".toList) descParts
        guid := b.link
        comments := b.link
        files := "1".toList
        size := sizeB
        category := cat
        grabs := "100".toList
        prefixTag := "annas_archive".toList
        author := author
        book_title := b.title
        language := lang
        format := fmt
        pub_ts := none }

/-- `_convert_results`: one entry per book, dropping the books whose
conversion raises. -/
def convert_results (books : List Book) (cat : List Char) : List Entry :=
  books.filterMap (convertBook cat)

/-- `search` of the plugin, with the two page-fetch collaborators
(`SeleniumHelper.get_page_source`, then `get_page_source_flaresolverr` on
primary failure) modelled as already-resolved outcomes carrying either the
parsed document's anchor list or the exception message.  Returns the result
list together with the final `last_error` state. -/
def searchRun (primary fallback : Except (List Char) (List Anchor))
    (query cat : List Char) : List Entry × Option (List Char) :=
  if query = [] then ([], some ("Missing query".toList))
  else
    match (match primary with | .ok h => Except.ok h | .error _ => fallback) with
    | .error e => ([], some e)
    | .ok doc =>
      let results := convert_results (parse_search_results doc) cat
      (results, if results = [] then some ("No results returned".toList) else none)

example :
    parse_search_results
      [{ href := "/md5/abc123".toList, text := "Great Book".toList,
         container := some { text := "Great Book by Jane Doe | 2.5MB | epub | English".toList,
                             heading := none } }] =
    [{ link := "https://annas-archive.org/md5/abc123".toList,
       title := "Great Book".toList, md5 := "abc123".toList,
       author := some ("Jane Doe".toList), extension := some ("epub".toList),
       size := some ("2.5MB".toList), language := some ("English".toList) }] := by rfl

example :
    (convert_results
      [{ link := "L".toList, title := "Great Book".toList, md5 := "abc123".toList,
         author := some ("Jane Doe".toList), extension := some ("epub".toList),
         size := some ("2.5MB".toList), language := some ("English".toList) }]
      ("7020".toList)).map (fun e => (e.title, e.description, e.size)) =
    [("Great Book - Jane Doe (EPUB)".toList,
      "Great Book | Jane Doe | English | EPUB".toList,
      "2621440".toList)] := by rfl

/-- First-occurrence filter on anchors by extracted md5 identifier, relative
to a set of identifiers already taken: an anchor whose href yields an
identifier that occurred earlier (or is in the set) is removed; anchors
without an extractable identifier are kept (they produce nothing anyway). -/
def dedupFirstAux : List Anchor → List (List Char) → List Anchor
  | [], _ => []
  | a :: rest, seen =>
    match findMd5 a.href with
    | none => a :: dedupFirstAux rest seen
    | some m =>
      if m ∈ seen then dedupFirstAux rest seen
      else a :: dedupFirstAux rest (m :: seen)

/-- Keep, for each md5 identifier, only the first anchor (in document order)
that carries it. -/
def dedupFirst (doc : List Anchor) : List Anchor :=
  dedupFirstAux doc []

/-- The fourteen concrete spellings of a size unit that are one of
`B`, `KB`, `MB`, `GB` up to case. -/
def unitForms : List (List Char) :=
  [("B".toList), ("b".toList),
   ("KB".toList), ("Kb".toList), ("kB".toList), ("kb".toList),
   ("MB".toList), ("Mb".toList), ("mB".toList), ("mb".toList),
   ("GB".toList), ("Gb".toList), ("gB".toList), ("gb".toList)]

/-- A raw record with no language and no format (counterexample input for
the description composition). -/
def bC3 : Book :=
  { link := "L".toList, title := "Title".toList, md5 := "ab".toList,
    author := some ("Auth".toList), extension := none, size := none, language := none }

/-- A raw record with a format but no language (witness input for the
corrected description composition). -/
def bC3w : Book :=
  { link := "L2".toList, title := "T3T".toList, md5 := "cd".toList,
    author := some ("Ann".toList), extension := some ("epub".toList),
    size := none, language := none }

/-- The entry produced from `bC3w` (category `"7020"`). -/
def eC3w : Entry :=
  { link := "L2".toList
    title := "T3T - Ann (EPUB)".toList
    description := "T3T | Ann | Unknown | EPUB".toList
    guid := "L2".toList
    comments := "L2".toList
    files := "1".toList
    size := "0".toList
    category := "7020".toList
    grabs := "100".toList
    prefixTag := "annas_archive".toList
    author := "Ann".toList
    book_title := "T3T".toList
    language := "Unknown".toList
    format := "EPUB".toList
    pub_ts := none }

/-- An anchor whose context text carries the malformed size token
`2..5 MB`: the parser accepts the candidate, but converting the resulting
record raises in `_convert_size_to_bytes`. -/
def aC4 : Anchor :=
  { href := "/md5/abcdef".toList, text := "Nice Book Title".toList,
    container := some { text := "junk 2..5 MB".toList, heading := none } }

/-- A raw record whose size token converts without error (witness input for
the corrected one-entry-per-record property). -/
def bC4w : Book :=
  { link := "L4".toList, title := "Some Book".toList, md5 := "ef".toList,
    author := none, extension := none, size := some ("1KB".toList), language := none }

/-- An anchor whose context text contains the lowercase word `english`. -/
def aC5 : Anchor :=
  { href := "/md5/abc123".toList, text := "My Book Title".toList,
    container := some { text := "the english book".toList, heading := none } }

/-- An anchor with empty anchor text, no heading, and a long container text
whose first 200 characters are a single letter followed by whitespace: the
200-character title fallback then yields a title of length 200 whose trimmed
length is 1. -/
def aC7 : Anchor :=
  { href := "/md5/ff00".toList, text := [],
    container := some { text := 'a' :: (List.replicate 210 ' ' ++ List.replicate 20 'b'),
                        heading := none } }

/-- A document with one well-behaved anchor (witness input for the corrected
title-length property). -/
def docC7w : List Anchor :=
  [{ href := "/md5/ab12".toList, text := "Good Title".toList, container := none }]

/-- The single book parsed from `docC7w`. -/
def bookC7w : Book :=
  { link := "https://annas-archive.org/md5/ab12".toList, title := "Good Title".toList,
    md5 := "ab12".toList, author := none, extension := none, size := none,
    language := none }

/-- An anchor carrying md5 `aa` whose derived title `"ab"` has length 2, so
the parser discards it after recording the identifier. -/
def aC10bad : Anchor :=
  { href := "/md5/aa".toList, text := "ab".toList, container := none }

/-- A document holding `aC10bad` followed by a second anchor with the same
md5 and a valid title. -/
def docC10 : List Anchor :=
  [aC10bad,
   { href := "/md5/aa".toList, text := "Great Long Title".toList, container := none }]

theorem takeWhile_append_all {p : Char → Bool} :
    ∀ (l r : List Char), (∀ c ∈ l, p c = true) →
    (l ++ r).takeWhile p = l ++ r.takeWhile p := by
  intro l r h
  induction l with
  | nil => simp
  | cons c cs ih =>
    have hc : p c = true := h c (List.mem_cons_self c cs)
    simp only [List.cons_append, List.takeWhile_cons, hc, if_true]
    rw [ih (fun x hx => h x (List.mem_cons_of_mem c hx))]

theorem takeWhile_append_nil {p : Char → Bool} :
    ∀ (l r : List Char), (∀ c ∈ l, p c = false) → r.takeWhile p = [] →
    (l ++ r).takeWhile p = [] := by
  intro l r h hr
  induction l with
  | nil => simpa using hr
  | cons c cs ih =>
    have hc : p c = false := h c (List.mem_cons_self c cs)
    simp [List.takeWhile_cons, hc]

theorem pySpace_not_digitdot (c : Char) (h : isPySpace c = true) : isDigitDot c = false := by
  simp only [isPySpace, Bool.or_eq_true, decide_eq_true_eq] at h
  rcases h with ((((rfl | rfl) | rfl) | rfl) | rfl) | rfl <;> rfl

/-- Truncating the product `value * multiplier` with `value = a / d` exactly
is the natural-number division `(a * m) / d`. -/
theorem floor_numden_mult (a d m : Nat) :
    (a * m) / d = ⌊((a : ℚ) / (d : ℚ)) * (m : ℚ)⌋₊ := by
  rw [div_mul_eq_mul_div, ← Nat.cast_mul, Nat.floor_div_eq_div]

theorem unitForms_props (u : List Char) (hu : u ∈ unitForms) :
    u.takeWhile isDigitDot = [] ∧ u.takeWhile isPySpace = [] ∧ unitAt u = some u := by
  fin_cases hu <;> exact ⟨rfl, rfl, rfl⟩

theorem matchSizeStart_token (num ws unit : List Char)
    (hnum : num ≠ []) (hnumc : ∀ c ∈ num, isDigitDot c = true)
    (hws : ∀ c ∈ ws, isPySpace c = true)
    (hud : unit.takeWhile isDigitDot = []) (hus : unit.takeWhile isPySpace = [])
    (hua : unitAt unit = some unit) :
    matchSizeStart (num ++ ws ++ unit) = some (num, unit) := by
  have hws' : ∀ c ∈ ws, isDigitDot c = false := fun c hc => pySpace_not_digitdot c (hws c hc)
  have h1 : (num ++ ws ++ unit).takeWhile isDigitDot = num := by
    rw [List.append_assoc, takeWhile_append_all _ _ hnumc,
      takeWhile_append_nil _ _ hws' hud, List.append_nil]
  have h2 : (num ++ ws ++ unit).drop num.length = ws ++ unit := by
    rw [List.append_assoc]
    exact List.drop_left num (ws ++ unit)
  have h3 : (ws ++ unit).takeWhile isPySpace = ws := by
    rw [takeWhile_append_all _ _ hws, hus, List.append_nil]
  have h4 : (ws ++ unit).drop ws.length = unit := List.drop_left ws unit
  simp only [matchSizeStart, h1, h2, h3, h4, hnum, if_false, hua, Option.map_some']

theorem decimalNumDen_den_pos {s : List Char} {a d : Nat}
    (h : decimalNumDen s = some (a, d)) : 0 < d := by
  unfold decimalNumDen at h
  split at h
  · split at h
    · exact Option.noConfusion h
    · cases h
      exact Nat.one_pos
  · split at h
    · exact Option.noConfusion h
    · cases h
      exact pow_pos (by norm_num) _
  · exact Option.noConfusion h

/-- When the double `M * 2 ^ (ep - 1074)` is exactly the numeral value
`a / d`, truncating the scaled double equals the exact
`floor((a / d) * mult)`. -/
theorem exact_double_floor (M ep d a mult : Nat) (hd : 0 < d)
    (he : M * 2 ^ ep * d = a * 2 ^ 1074) :
    M * mult * 2 ^ ep / 2 ^ 1074 = a * mult / d := by
  have h2 : (0 : Nat) < 2 ^ 1074 := pow_pos (by norm_num) _
  have key : M * mult * 2 ^ ep * d = a * mult * 2 ^ 1074 := by
    calc M * mult * 2 ^ ep * d = M * 2 ^ ep * d * mult := by ring
      _ = a * 2 ^ 1074 * mult := by rw [he]
      _ = a * mult * 2 ^ 1074 := by ring
  calc M * mult * 2 ^ ep / 2 ^ 1074
      = M * mult * 2 ^ ep * d / (2 ^ 1074 * d) := (Nat.mul_div_mul_right _ _ hd).symm
    _ = a * mult * 2 ^ 1074 / (2 ^ 1074 * d) := by rw [key]
    _ = a * mult * 2 ^ 1074 / (d * 2 ^ 1074) := by rw [Nat.mul_comm (2 ^ 1074) d]
    _ = a * mult / d := Nat.mul_div_mul_right _ _ h2

/-- Claim C1 counterexample: on the token `"1.999999999999999999GB"` — whose
numeric value is n = 1999999999999999999 / 10¹⁸ — the function returns
`"2147483648"`, because `float()` first rounds n to the nearest binary64
value, which is exactly 2.0; the exact `floor(n × 1024³)` claimed by C1 is
2147483647. -/
theorem C1_cex :
    decimalNumDen ("1.999999999999999999".toList) = some (1999999999999999999, 10 ^ 18) ∧
    convert_size_to_bytes ("1.999999999999999999GB".toList) = .ok ("2147483648".toList) ∧
    1999999999999999999 * multOf (("GB".toList).map Char.toUpper) / 10 ^ 18 = 2147483647 ∧
    ("2147483648".toList : List Char) ≠ "2147483647".toList :=
  ⟨by rfl, by rfl, by rfl, by decide⟩

/-- Claim C1, amended: for every size token `<n><unit>` where `n` is a
decimal number (exact value `a / d`) and `unit` is one of B, KB, MB, GB
case-insensitively, with optional whitespace between number and unit,
`_convert_size_to_bytes` returns the string encoding of
`floor(float(n) × multiplier)`, where `float(n)` is `n` rounded to the
nearest IEEE-754 binary64 value `M * 2 ^ (ep - 1074)` (ties to even) and the
multiplication by the power-of-two multiplier is exact.  The second conjunct
identifies the returned number with the floor of the rounded value times the
multiplier; the third states that it equals the exact `floor(n × multiplier)`
of the original claim whenever `float(n)` represents `n` exactly (as it does
for `"2.5"`), which fails in general (`C1_cex`). -/
theorem C1_size_floor (num ws unit : List Char) (a d M ep : Nat)
    (hq : decimalNumDen num = some (a, d))
    (hnumc : ∀ c ∈ num, isDigitDot c = true)
    (hws : ∀ c ∈ ws, isPySpace c = true)
    (hunit : unit ∈ unitForms)
    (hf : floatOfNumDen a d = some (M, ep))
    (hov : M * multOf (unit.map Char.toUpper) * 2 ^ ep < 2 ^ 2098) :
    convert_size_to_bytes (num ++ ws ++ unit) =
      .ok (toString (M * multOf (unit.map Char.toUpper) * 2 ^ ep / 2 ^ 1074)).toList ∧
    M * multOf (unit.map Char.toUpper) * 2 ^ ep / 2 ^ 1074 =
      ⌊((M * multOf (unit.map Char.toUpper) : Nat) : ℚ) / ((2 ^ 1074 : Nat) : ℚ) *
        ((2 ^ ep : Nat) : ℚ)⌋₊ ∧
    (M * 2 ^ ep * d = a * 2 ^ 1074 →
      M * multOf (unit.map Char.toUpper) * 2 ^ ep / 2 ^ 1074 =
        a * multOf (unit.map Char.toUpper) / d) := by
  have hnum : num ≠ [] := by
    intro h; subst h; simp [decimalNumDen, splitDot] at hq
  have hne : num ++ ws ++ unit ≠ [] := by
    intro h
    rcases List.append_eq_nil.mp h with ⟨h1, _⟩
    rcases List.append_eq_nil.mp h1 with ⟨h2, _⟩
    exact hnum h2
  obtain ⟨hud, hus, hua⟩ := unitForms_props unit hunit
  have hms := matchSizeStart_token num ws unit hnum hnumc hws hud hus hua
  refine ⟨?_, floor_numden_mult _ _ _, ?_⟩
  · simp only [convert_size_to_bytes, if_neg hne, hms, hq, hf]
    rw [if_neg (not_le.mpr hov)]
  · intro he
    exact exact_double_floor M ep d a _ (decimalNumDen_den_pos hq) he

/-- Witness for `C1_size_floor` at the token `"2.5MB"`: `float("2.5")` is
the double `5629499534213120 * 2 ^ (1023 - 1074)`, which is exactly 5/2, so
the result `"2621440"` is the exact `floor(2.5 * 1024²)`. -/
theorem C1_size_floor_witness :
    decimalNumDen ("2.5".toList) = some (25, 10) ∧
    floatOfNumDen 25 10 = some (5629499534213120, 1023) ∧
    convert_size_to_bytes ("2.5".toList ++ [] ++ "MB".toList) =
      .ok (toString
        (5629499534213120 * multOf (("MB".toList).map Char.toUpper) * 2 ^ 1023 / 2 ^ 1074)).toList ∧
    5629499534213120 * 2 ^ 1023 * 10 = 25 * 2 ^ 1074 ∧
    5629499534213120 * multOf (("MB".toList).map Char.toUpper) * 2 ^ 1023 / 2 ^ 1074 =
      25 * multOf (("MB".toList).map Char.toUpper) / 10 ∧
    25 * multOf (("MB".toList).map Char.toUpper) / 10 = 2621440 := by
  have h := C1_size_floor ("2.5".toList) [] ("MB".toList) 25 10 5629499534213120 1023
    (by rfl) (by decide) (by simp) (by decide) (by rfl) (by decide)
  have hex : 5629499534213120 * 2 ^ 1023 * 10 = 25 * 2 ^ 1074 := by decide
  exact ⟨by rfl, by rfl, h.1, hex, h.2.2 hex, by rfl⟩

/-- Claim C2 counterexample: the input `".MB"` is neither empty nor of the
form `<number><whitespace><unit>` (`"."` is not a number), yet
`_convert_size_to_bytes` does not return `"0"`: the regex `[\d.]+` accepts
`"."` and `float('.')` raises `ValueError`. -/
theorem C2_cex :
    convert_size_to_bytes (".MB".toList) = .error ("ValueError".toList) ∧
    convert_size_to_bytes (".MB".toList) ≠ .ok ("0".toList) := by
  refine ⟨by rfl, ?_⟩
  intro h
  rw [show convert_size_to_bytes (".MB".toList) = .error ("ValueError".toList) from rfl] at h
  exact Except.noConfusion h

/-- Claim C2, amended: for every input that is empty or on which the regex
`([\d.]+)\s*(MB|KB|GB|B)` does not match at the start, the function returns
`"0"` without error; however an input matching the regex whose numeric group
is not a valid decimal numeral (such as `".MB"`) raises `ValueError` in
`float()` instead of returning `"0"`. -/
theorem C2_default_zero (s : List Char) (h : s = [] ∨ matchSizeStart s = none) :
    convert_size_to_bytes s = .ok ("0".toList) := by
  rcases h with rfl | h
  · rfl
  · unfold convert_size_to_bytes
    split
    · rfl
    · rw [h]
      rfl

/-- Witness for `C2_default_zero` at the input `"garbage"`. -/
theorem C2_default_zero_witness :
    matchSizeStart ("garbage".toList) = none ∧
    convert_size_to_bytes ("garbage".toList) = .ok ("0".toList) :=
  ⟨by rfl, C2_default_zero _ (Or.inr (by rfl))⟩

/-- Claim C9: for every category token (and any outcomes of the two page
fetchers), `search` with an empty query returns an empty result list without
raising and sets the last-error state to `"Missing query"`. -/
theorem C9_missing_query (primary fallback : Except (List Char) (List Anchor))
    (cat : List Char) :
    searchRun primary fallback [] cat = ([], some ("Missing query".toList)) := by
  rfl

/-- Claim C3 counterexample: a raw record with no language yields a
description that does contain a language segment: the default `'Unknown'` is
truthy, so `_convert_results` appends it. -/
theorem C3_cex :
    (convert_results [bC3] ("7020".toList)).map Entry.description =
      ["Title | Auth | Unknown".toList] ∧
    ("Title | Auth | Unknown".toList : List Char) ≠ "Title | Auth".toList :=
  ⟨by rfl, by decide⟩

/-- Claim C3, amended: the description is the pipe-joined ordered list of
bookTitle, author (defaulting to `Unknown`), the language segment — always
present, being the record's language or the default `Unknown` — and the
format, appended only when the raw record has a format.  (The hypotheses
exclude present-but-empty language/format fields, which the parser never
produces.) -/
theorem C3_description (b : Book) (cat : List Char) (e : Entry)
    (hl : b.language ≠ some []) (hf : b.extension ≠ some [])
    (h : convertBook cat b = some e) :
    e.description = List.intercalate (" | ".toList)
      ([b.title, b.author.getD ("Unknown".toList), b.language.getD ("Unknown".toList)] ++
       (match b.extension with
        | none => []
        | some f => [f.map Char.toUpper])) := by
  rcases b with ⟨blink, btitle, bmd5, bauth, bext, bsize, blang⟩
  simp only [convertBook] at h
  cases hsz : convert_size_to_bytes (bsize.getD ("0MB".toList)) with
  | error m => rw [hsz] at h; simp at h
  | ok sb =>
    rw [hsz] at h
    simp only [Option.some.injEq] at h
    subst h
    cases blang with
    | none =>
      cases bext with
      | none => simp
      | some f =>
        have hf2 : f ≠ [] := fun hh => hf (by rw [hh])
        simp [List.map_eq_nil_iff, hf2]
    | some l =>
      have hl2 : l ≠ [] := fun hh => hl (by rw [hh])
      cases bext with
      | none => simp [hl2]
      | some f =>
        have hf2 : f ≠ [] := fun hh => hf (by rw [hh])
        simp [List.map_eq_nil_iff, hf2, hl2]

/-- Witness for `C3_description` at a record with format `epub` and no
language. -/
theorem C3_description_witness :
    bC3w.language ≠ some [] ∧ bC3w.extension ≠ some [] ∧
    convertBook ("7020".toList) bC3w = some eC3w ∧
    eC3w.description = List.intercalate (" | ".toList)
      ([bC3w.title, bC3w.author.getD ("Unknown".toList), bC3w.language.getD ("Unknown".toList)] ++
       (match bC3w.extension with
        | none => []
        | some f => [f.map Char.toUpper])) :=
  ⟨by decide, by decide, by rfl,
   C3_description bC3w ("7020".toList) eC3w (by decide) (by decide) (by rfl)⟩

/-- Claim C4 counterexample: a document whose single raw record carries the
size token `2..5MB`; `_convert_results` drops it (the size conversion
raises), so the mapping is not 1:1. -/
theorem C4_cex :
    (parse_search_results [aC4]).length = 1 ∧
    (convert_results (parse_search_results [aC4]) ("7020".toList)).length = 0 :=
  ⟨by rfl, by rfl⟩

/-- Claim C4, amended: `_convert_results` yields at most one standardized
record per raw record, in input order; a raw record is dropped exactly when
its conversion raises (a malformed size token such as `2..5MB`).  When no
record's conversion raises, the mapping is 1:1 and order-preserving. -/
theorem C4_one_to_one (books : List Book) (cat : List Char)
    (h : ∀ b ∈ books, (convertBook cat b).isSome) :
    List.Forall₂ (fun b e => convertBook cat b = some e) books (convert_results books cat) := by
  induction books with
  | nil => exact List.Forall₂.nil
  | cons b bs ih =>
    have hb := h b (List.mem_cons_self b bs)
    obtain ⟨e, he⟩ := Option.isSome_iff_exists.mp hb
    have hc : convert_results (b :: bs) cat = e :: convert_results bs cat := by
      simp [convert_results, List.filterMap_cons, he]
    rw [hc]
    exact List.Forall₂.cons he (ih (fun x hx => h x (List.mem_cons_of_mem b hx)))

/-- Witness for `C4_one_to_one` on a one-record list whose size token
converts cleanly. -/
theorem C4_one_to_one_witness :
    (∀ b ∈ [bC4w], (convertBook ("7020".toList) b).isSome) ∧
    List.Forall₂ (fun b e => convertBook ("7020".toList) b = some e) [bC4w]
      (convert_results [bC4w] ("7020".toList)) :=
  ⟨by decide, C4_one_to_one [bC4w] ("7020".toList) (by decide)⟩

/-- Claim C5 counterexample: a context containing lowercase `english` yields
the language field `english` — the matched text with the input's casing —
not the title-case spelling `English`. -/
theorem C5_cex :
    (parse_search_results [aC5]).map Book.language = [some ("english".toList)] ∧
    some ("english".toList) ≠ some ("English".toList) :=
  ⟨by rfl, by decide⟩

theorem ciTake_lower :
    ∀ (pat s m r : List Char), ciTake pat s = some (m, r) →
      m.map Char.toLower = pat.map Char.toLower := by
  intro pat
  induction pat with
  | nil =>
    intro s m r h
    simp only [ciTake, Option.some.injEq, Prod.mk.injEq] at h
    rw [← h.1]
  | cons p ps ih =>
    intro s m r h
    cases s with
    | nil => simp [ciTake] at h
    | cons c cs =>
      simp only [ciTake] at h
      by_cases hc : c.toLower = p.toLower
      · rw [if_pos hc] at h
        obtain ⟨⟨m2, r2⟩, hmr, hf⟩ := Option.map_eq_some'.mp h
        obtain ⟨hm, hr⟩ := Prod.mk.injEq .. ▸ hf
        rw [← hm]
        simp only [List.map_cons, hc]
        rw [ih cs m2 r2 hmr]
      · rw [if_neg hc] at h
        exact absurd h (by simp)

theorem tryAltsAt_mem :
    ∀ (alts : List (List Char)) (s m : List Char), tryAltsAt alts s = some m →
      ∃ alt ∈ alts, m.map Char.toLower = alt.map Char.toLower := by
  intro alts
  induction alts with
  | nil => intro s m h; simp [tryAltsAt] at h
  | cons alt more ih =>
    intro s m h
    simp only [tryAltsAt] at h
    split at h
    · rename_i m2 r2 heq
      split at h
      · cases h
        exact ⟨alt, List.mem_cons_self _ _, ciTake_lower alt s _ _ heq⟩
      · obtain ⟨a, ha, hm⟩ := ih s m h
        exact ⟨a, List.mem_cons_of_mem _ ha, hm⟩
    · obtain ⟨a, ha, hm⟩ := ih s m h
      exact ⟨a, List.mem_cons_of_mem _ ha, hm⟩

theorem altScan_mem (alts : List (List Char)) :
    ∀ (s : List Char) (prev : Option Char) (m : List Char),
      altScan alts prev s = some m →
      ∃ alt ∈ alts, m.map Char.toLower = alt.map Char.toLower := by
  intro s
  induction s with
  | nil => intro prev m h; simp [altScan] at h
  | cons c rest ih =>
    intro prev m h
    simp only [altScan] at h
    split at h
    · cases ht : tryAltsAt alts (c :: rest) with
      | none => rw [ht] at h; exact ih _ _ h
      | some m2 =>
        rw [ht] at h
        cases h
        exact tryAltsAt_mem alts (c :: rest) _ ht
    · exact ih _ _ h

theorem ciTake_split :
    ∀ (pat s m r : List Char), ciTake pat s = some (m, r) → m ++ r = s := by
  intro pat
  induction pat with
  | nil =>
    intro s m r h
    simp only [ciTake, Option.some.injEq, Prod.mk.injEq] at h
    rw [← h.1, ← h.2]
    rfl
  | cons p ps ih =>
    intro s m r h
    cases s with
    | nil => simp [ciTake] at h
    | cons c cs =>
      simp only [ciTake] at h
      by_cases hc : c.toLower = p.toLower
      · rw [if_pos hc] at h
        obtain ⟨⟨m2, r2⟩, hmr, hf⟩ := Option.map_eq_some'.mp h
        obtain ⟨hm, hr⟩ := Prod.mk.injEq .. ▸ hf
        rw [← hm, ← hr]
        simp only [List.cons_append]
        rw [ih cs m2 r2 hmr]
      · rw [if_neg hc] at h
        exact absurd h (by simp)

theorem tryAltsAt_starts :
    ∀ (alts : List (List Char)) (s m : List Char), tryAltsAt alts s = some m →
      m <+: s := by
  intro alts
  induction alts with
  | nil => intro s m h; simp [tryAltsAt] at h
  | cons alt more ih =>
    intro s m h
    simp only [tryAltsAt] at h
    split at h
    · rename_i m2 r2 heq
      split at h
      · cases h
        exact ⟨r2, ciTake_split alt s _ _ heq⟩
      · exact ih s m h
    · exact ih s m h

theorem altScan_within (alts : List (List Char)) :
    ∀ (s : List Char) (prev : Option Char) (m : List Char),
      altScan alts prev s = some m → m <:+: s := by
  intro s
  induction s with
  | nil => intro prev m h; simp [altScan] at h
  | cons c rest ih =>
    intro prev m h
    simp only [altScan] at h
    split at h
    · cases ht : tryAltsAt alts (c :: rest) with
      | none =>
        rw [ht] at h
        exact List.infix_cons (ih _ _ h)
      | some m2 =>
        rw [ht] at h
        cases h
        exact (tryAltsAt_starts alts (c :: rest) _ ht).isInfix
    · exact List.infix_cons (ih _ _ h)

/-- Claim C5, amended: whenever the language regex matches, the extracted
language is the matched substring of the context text — it occurs verbatim
(casing included) inside the context, stated as `l <:+: ctx` — and it equals
one of the ten enumerated language names up to case (but not necessarily in
their title-case spelling: see `C5_cex`). -/
theorem C5_language (ctx l : List Char) (h : langSearch ctx = some l) :
    l <:+: ctx ∧ l.map Char.toLower ∈ languageNames.map (List.map Char.toLower) := by
  refine ⟨altScan_within languageNames ctx none l h, ?_⟩
  obtain ⟨alt, ha, hm⟩ := altScan_mem languageNames ctx none l h
  rw [hm]
  exact List.mem_map_of_mem _ ha

/-- Witness for `C5_language` at the context `"xx english yy"`: the matched
text `"english"` occurs verbatim in the context and equals `"English"` up to
case. -/
theorem C5_language_witness :
    langSearch ("xx english yy".toList) = some ("english".toList) ∧
    ("english".toList <:+: "xx english yy".toList ∧
      ("english".toList).map Char.toLower ∈ languageNames.map (List.map Char.toLower)) :=
  ⟨by rfl, C5_language ("xx english yy".toList) ("english".toList) (by rfl)⟩

theorem md5At_marker {s r : List Char} (h : md5At s = some r) :
    startsWith md5Marker s = true := by
  unfold md5At at h
  split at h
  · assumption
  · exact absurd h (by simp)

theorem startsWith_containsSub (pat : List Char) :
    ∀ s, startsWith pat s = true → containsSub pat s = true := by
  intro s h
  cases s with
  | nil => simpa [containsSub] using h
  | cons c rest => simp [containsSub, h]

theorem containsSub_cons (pat : List Char) (c : Char) {rest : List Char}
    (h : containsSub pat rest = true) : containsSub pat (c :: rest) = true := by
  simp [containsSub, h]

theorem findMd5_contains : ∀ (s m : List Char),
    findMd5 s = some m → containsSub md5Marker s = true := by
  intro s
  induction s with
  | nil => intro m h; simp [findMd5] at h
  | cons c rest ih =>
    intro m h
    simp only [findMd5] at h
    split at h
    · rename_i r heq
      exact startsWith_containsSub _ _ (md5At_marker heq)
    · exact containsSub_cons _ _ (ih m h)

theorem findMd5_ne_nil {s m : List Char} (h : findMd5 s = some m) : s ≠ [] := by
  intro he
  subst he
  simp [findMd5] at h

theorem findMd5_guard {a : Anchor} {m : List Char} (hm : findMd5 a.href = some m) :
    ¬(a.href = [] ∨ containsSub md5Marker a.href = false) := by
  rintro (he | hc)
  · exact findMd5_ne_nil hm he
  · have hw := findMd5_contains _ _ hm
    rw [hc] at hw
    exact Bool.noConfusion hw

theorem anchorStep_none {a : Anchor} {seen : List (List Char)}
    (h : findMd5 a.href = none) : anchorStep seen a = .skip := by
  unfold anchorStep
  split
  · rfl
  · rw [h]

theorem anchorStep_mem {a : Anchor} {seen : List (List Char)} {m : List Char}
    (hm : findMd5 a.href = some m) (hmem : m ∈ seen) : anchorStep seen a = .skip := by
  simp only [anchorStep, if_neg (findMd5_guard hm), hm]
  rw [if_pos hmem]

theorem anchorStep_mark_intro {a : Anchor} {seen : List (List Char)} {m : List Char}
    (hm : findMd5 a.href = some m) (hnot : m ∉ seen)
    (ht : deriveTitle a = [] ∨ (deriveTitle a).length < 3) :
    anchorStep seen a = .mark m := by
  simp only [anchorStep, if_neg (findMd5_guard hm), hm]
  rw [if_neg hnot, if_pos ht]

theorem anchorStep_keep_intro {a : Anchor} {seen : List (List Char)} {m : List Char}
    (hm : findMd5 a.href = some m) (hnot : m ∉ seen)
    (ht : ¬(deriveTitle a = [] ∨ (deriveTitle a).length < 3)) :
    anchorStep seen a = .keep m (buildBook a m (deriveTitle a)) := by
  simp only [anchorStep, if_neg (findMd5_guard hm), hm]
  rw [if_neg hnot, if_neg ht]

theorem anchorStep_mark_elim {a : Anchor} {seen : List (List Char)} {m : List Char}
    (h : anchorStep seen a = .mark m) :
    findMd5 a.href = some m ∧ m ∉ seen ∧
      (deriveTitle a = [] ∨ (deriveTitle a).length < 3) := by
  simp only [anchorStep] at h
  split at h
  · exact StepRes.noConfusion h
  · split at h
    · exact StepRes.noConfusion h
    · rename_i m2 heq
      split at h
      · exact StepRes.noConfusion h
      · split at h
        · rename_i hnot ht
          cases h
          exact ⟨heq, hnot, ht⟩
        · exact StepRes.noConfusion h

theorem anchorStep_keep_elim {a : Anchor} {seen : List (List Char)} {m : List Char}
    {bk : Book} (h : anchorStep seen a = .keep m bk) :
    findMd5 a.href = some m ∧ m ∉ seen ∧ deriveTitle a ≠ [] ∧
      3 ≤ (deriveTitle a).length ∧ bk = buildBook a m (deriveTitle a) := by
  simp only [anchorStep] at h
  split at h
  · exact StepRes.noConfusion h
  · split at h
    · exact StepRes.noConfusion h
    · rename_i m2 heq
      split at h
      · exact StepRes.noConfusion h
      · split at h
        · exact StepRes.noConfusion h
        · rename_i hnot ht
          push_neg at ht
          cases h
          exact ⟨heq, hnot, ht.1, by omega, rfl⟩

theorem goParse_cons_skip {a : Anchor} {rest : List Anchor} {seen : List (List Char)}
    {books : List Book} (h : anchorStep seen a = .skip) :
    goParse (a :: rest) seen books = goParse rest seen books := by
  simp [goParse, h]

theorem goParse_cons_mark {a : Anchor} {rest : List Anchor} {seen : List (List Char)}
    {books : List Book} {m : List Char} (h : anchorStep seen a = .mark m) :
    goParse (a :: rest) seen books = goParse rest (m :: seen) books := by
  simp [goParse, h]

theorem goParse_cons_keep {a : Anchor} {rest : List Anchor} {seen : List (List Char)}
    {books : List Book} {m : List Char} {bk : Book} (h : anchorStep seen a = .keep m bk) :
    goParse (a :: rest) seen books =
      if 25 ≤ (books ++ [bk]).length then books ++ [bk]
      else goParse rest (m :: seen) (books ++ [bk]) := by
  simp [goParse, h]

theorem goParse_length :
    ∀ (l : List Anchor) (seen : List (List Char)) (books : List Book),
      books.length < 25 → (goParse l seen books).length ≤ 25 := by
  intro l
  induction l with
  | nil => intro seen books h; simpa [goParse] using h.le
  | cons a rest ih =>
    intro seen books h
    cases hstep : anchorStep seen a with
    | skip => rw [goParse_cons_skip hstep]; exact ih seen books h
    | mark m => rw [goParse_cons_mark hstep]; exact ih _ books h
    | keep m bk =>
      rw [goParse_cons_keep hstep]
      by_cases hlen : 25 ≤ (books ++ [bk]).length
      · rw [if_pos hlen]
        simp only [List.length_append, List.length_singleton]
        omega
      · rw [if_neg hlen]
        exact ih _ _ (by omega)

/-- Claim C6: for every input document, `_parse_search_results` returns at
most 25 records; the loop breaks once 25 records have been accumulated. -/
theorem C6_cap (doc : List Anchor) : (parse_search_results doc).length ≤ 25 :=
  goParse_length _ [] [] (by simp)

theorem goParse_title :
    ∀ (l : List Anchor) (seen : List (List Char)) (books : List Book),
      (∀ b ∈ books, b.title ≠ [] ∧ 3 ≤ b.title.length) →
      ∀ b ∈ goParse l seen books, b.title ≠ [] ∧ 3 ≤ b.title.length := by
  intro l
  induction l with
  | nil => intro seen books h; simpa [goParse] using h
  | cons a rest ih =>
    intro seen books h
    cases hstep : anchorStep seen a with
    | skip => rw [goParse_cons_skip hstep]; exact ih seen books h
    | mark m => rw [goParse_cons_mark hstep]; exact ih _ books h
    | keep m bk =>
      obtain ⟨_, _, ht1, ht2, hbk⟩ := anchorStep_keep_elim hstep
      have h2 : ∀ b ∈ books ++ [bk], b.title ≠ [] ∧ 3 ≤ b.title.length := by
        intro b hb
        rcases List.mem_append.mp hb with hb | hb
        · exact h b hb
        · rw [List.mem_singleton.mp hb, hbk]
          exact ⟨ht1, ht2⟩
      rw [goParse_cons_keep hstep]
      by_cases hlen : 25 ≤ (books ++ [bk]).length
      · rw [if_pos hlen]; exact h2
      · rw [if_neg hlen]; exact ih _ _ h2

set_option maxRecDepth 4000 in
/-- Claim C7 counterexample: the 200-character context fallback can produce
a title whose raw length is 200 (so the candidate passes the parser's
length check and produces a record) but whose trimmed length is 1: the claim
that every returned title has at least 3 characters *after trimming* fails. -/
theorem C7_cex :
    (parse_search_results [aC7]).map (fun b => (pyStrip b.title).length) = [1] ∧
    (parse_search_results [aC7]).map (fun b => b.title.length) = [200] :=
  ⟨by decide, by decide⟩

/-- Claim C7, amended: every record returned by `_parse_search_results` has
a non-empty title of length at least 3, and a candidate whose derived title
is empty or shorter than 3 characters is discarded and produces no record.
The length check is on the derived title as produced (titles from anchor
text or headings are stripped, but the 200-character context fallback can
retain inner whitespace, so the *trimmed* length may be smaller). -/
theorem C7_title_length (doc : List Anchor) (b : Book)
    (hb : b ∈ parse_search_results doc) : b.title ≠ [] ∧ 3 ≤ b.title.length :=
  goParse_title _ [] [] (by simp) b hb

/-- Witness for `C7_title_length` on a one-anchor document. -/
theorem C7_title_length_witness :
    bookC7w ∈ parse_search_results docC7w ∧
    bookC7w.title ≠ [] ∧ 3 ≤ bookC7w.title.length :=
  ⟨by decide, C7_title_length docC7w bookC7w (by decide)⟩

theorem goParse_pairwise :
    ∀ (l : List Anchor) (seen : List (List Char)) (books : List Book),
      books.Pairwise (fun x y => x.md5 ≠ y.md5) → (∀ b ∈ books, b.md5 ∈ seen) →
      (goParse l seen books).Pairwise (fun x y => x.md5 ≠ y.md5) := by
  intro l
  induction l with
  | nil => intro seen books h1 _; simpa [goParse] using h1
  | cons a rest ih =>
    intro seen books h1 h2
    cases hstep : anchorStep seen a with
    | skip => rw [goParse_cons_skip hstep]; exact ih seen books h1 h2
    | mark m =>
      rw [goParse_cons_mark hstep]
      exact ih _ books h1 (fun b hb => List.mem_cons_of_mem m (h2 b hb))
    | keep m bk =>
      obtain ⟨hm, hnot, _, _, hbk⟩ := anchorStep_keep_elim hstep
      have hbkm : bk.md5 = m := by rw [hbk]; rfl
      have h1' : (books ++ [bk]).Pairwise (fun x y => x.md5 ≠ y.md5) := by
        rw [List.pairwise_append]
        refine ⟨h1, List.pairwise_singleton _ _, ?_⟩
        intro x hx y hy
        rw [List.mem_singleton.mp hy, hbkm]
        intro hxy
        exact hnot (hxy ▸ h2 x hx)
      have h2' : ∀ b ∈ books ++ [bk], b.md5 ∈ m :: seen := by
        intro b hb
        rcases List.mem_append.mp hb with hb | hb
        · exact List.mem_cons_of_mem m (h2 b hb)
        · rw [List.mem_singleton.mp hb, hbkm]
          exact List.mem_cons_self m seen
      rw [goParse_cons_keep hstep]
      by_cases hlen : 25 ≤ (books ++ [bk]).length
      · rw [if_pos hlen]; exact h1'
      · rw [if_neg hlen]; exact ih _ _ h1' h2'

theorem goParse_dedup :
    ∀ (l : List Anchor) (seen : List (List Char)) (books : List Book),
      goParse l seen books = goParse (dedupFirstAux l seen) seen books := by
  intro l
  induction l with
  | nil => intro seen books; rfl
  | cons a rest ih =>
    intro seen books
    cases hm : findMd5 a.href with
    | none =>
      have hs : anchorStep seen a = .skip := anchorStep_none hm
      have hd : dedupFirstAux (a :: rest) seen = a :: dedupFirstAux rest seen := by
        simp [dedupFirstAux, hm]
      rw [goParse_cons_skip hs, hd, goParse_cons_skip hs]
      exact ih seen books
    | some m =>
      by_cases hmem : m ∈ seen
      · have hs := anchorStep_mem hm hmem
        have hd : dedupFirstAux (a :: rest) seen = dedupFirstAux rest seen := by
          simp [dedupFirstAux, hm, hmem]
        rw [goParse_cons_skip hs, hd]
        exact ih seen books
      · have hd : dedupFirstAux (a :: rest) seen = a :: dedupFirstAux rest (m :: seen) := by
          simp [dedupFirstAux, hm, hmem]
        rw [hd]
        by_cases ht : deriveTitle a = [] ∨ (deriveTitle a).length < 3
        · have hs := anchorStep_mark_intro hm hmem ht
          rw [goParse_cons_mark hs, goParse_cons_mark hs]
          exact ih _ books
        · have hs := anchorStep_keep_intro hm hmem ht
          rw [goParse_cons_keep hs, goParse_cons_keep hs]
          by_cases hlen : 25 ≤ (books ++ [buildBook a m (deriveTitle a)]).length
          · rw [if_pos hlen, if_pos hlen]
          · rw [if_neg hlen, if_neg hlen]
            exact ih _ _

theorem dedup_filter :
    ∀ (l : List Anchor) (seen : List (List Char)),
      (dedupFirstAux l seen).filter (fun a => (findMd5 a.href).isSome) =
        dedupFirstAux (l.filter (fun a => (findMd5 a.href).isSome)) seen := by
  intro l
  induction l with
  | nil => intro seen; rfl
  | cons a rest ih =>
    intro seen
    cases hm : findMd5 a.href with
    | none =>
      have hp : (fun a => (findMd5 a.href).isSome) a = false := by simp [hm]
      have hd : dedupFirstAux (a :: rest) seen = a :: dedupFirstAux rest seen := by
        simp [dedupFirstAux, hm]
      rw [hd, List.filter_cons_of_neg (by simp [hp]), List.filter_cons_of_neg (by simp [hp])]
      exact ih seen
    | some m =>
      have hp : (fun a => (findMd5 a.href).isSome) a = true := by simp [hm]
      by_cases hmem : m ∈ seen
      · have hd : dedupFirstAux (a :: rest) seen = dedupFirstAux rest seen := by
          simp [dedupFirstAux, hm, hmem]
        rw [hd, List.filter_cons_of_pos (by simp [hp])]
        have hd2 : dedupFirstAux (a :: rest.filter (fun a => (findMd5 a.href).isSome)) seen =
            dedupFirstAux (rest.filter (fun a => (findMd5 a.href).isSome)) seen := by
          simp [dedupFirstAux, hm, hmem]
        rw [hd2]
        exact ih seen
      · have hd : dedupFirstAux (a :: rest) seen = a :: dedupFirstAux rest (m :: seen) := by
          simp [dedupFirstAux, hm, hmem]
        rw [hd, List.filter_cons_of_pos (by simp [hp]),
          List.filter_cons_of_pos (by simp [hp])]
        have hd2 : dedupFirstAux (a :: rest.filter (fun a => (findMd5 a.href).isSome)) seen =
            a :: dedupFirstAux (rest.filter (fun a => (findMd5 a.href).isSome)) (m :: seen) := by
          simp [dedupFirstAux, hm, hmem]
        rw [hd2, ih (m :: seen)]

/-- Claim C8: for every input document, no two records returned by
`_parse_search_results` carry the same md5 identifier, and the output is
entirely determined by the first anchor (in document order) carrying each
identifier: removing every later anchor whose identifier occurred earlier
leaves the output unchanged. -/
theorem C8_dedup (doc : List Anchor) :
    (parse_search_results doc).Pairwise (fun b1 b2 => b1.md5 ≠ b2.md5) ∧
    parse_search_results doc = parse_search_results (dedupFirst doc) := by
  constructor
  · exact goParse_pairwise _ [] [] List.Pairwise.nil (by simp)
  · unfold parse_search_results dedupFirst
    rw [dedup_filter]
    exact goParse_dedup _ [] []

theorem goParse_absent (X : List Char) :
    ∀ (l : List Anchor) (seen : List (List Char)) (books : List Book),
      X ∈ seen → (∀ b ∈ books, b.md5 ≠ X) →
      ∀ b ∈ goParse l seen books, b.md5 ≠ X := by
  intro l
  induction l with
  | nil => intro seen books _ hb; simpa [goParse] using hb
  | cons a rest ih =>
    intro seen books hX hb
    cases hstep : anchorStep seen a with
    | skip => rw [goParse_cons_skip hstep]; exact ih seen books hX hb
    | mark m =>
      rw [goParse_cons_mark hstep]
      exact ih _ books (List.mem_cons_of_mem m hX) hb
    | keep m bk =>
      obtain ⟨hm, hnot, _, _, hbk⟩ := anchorStep_keep_elim hstep
      have hbkm : bk.md5 = m := by rw [hbk]; rfl
      have hbkX : bk.md5 ≠ X := by
        rw [hbkm]
        intro he
        exact hnot (he ▸ hX)
      have hb2 : ∀ b ∈ books ++ [bk], b.md5 ≠ X := by
        intro b hbb
        rcases List.mem_append.mp hbb with h | h
        · exact hb b h
        · rw [List.mem_singleton.mp h]; exact hbkX
      rw [goParse_cons_keep hstep]
      by_cases hlen : 25 ≤ (books ++ [bk]).length
      · rw [if_pos hlen]; exact hb2
      · rw [if_neg hlen]; exact ih _ _ (List.mem_cons_of_mem m hX) hb2

theorem goParse_first_bad (X : List Char) :
    ∀ (l : List Anchor) (seen : List (List Char)) (books : List Book) (a : Anchor),
      X ∉ seen → (∀ b ∈ books, b.md5 ≠ X) →
      l.find? (fun a2 => findMd5 a2.href == some X) = some a →
      (deriveTitle a).length < 3 →
      ∀ b ∈ goParse l seen books, b.md5 ≠ X := by
  intro l
  induction l with
  | nil => intro seen books a _ _ hfind _; simp at hfind
  | cons a0 rest ih =>
    intro seen books a hX hb hfind hbad
    by_cases hp : (findMd5 a0.href == some X) = true
    · have hfa : findMd5 a0.href = some X := beq_iff_eq.mp hp
      have ha : a = a0 := by
        simp only [List.find?] at hfind
        rw [hp] at hfind
        exact (Option.some.inj hfind).symm
      subst ha
      have hstep := anchorStep_mark_intro hfa hX (Or.inr hbad)
      rw [goParse_cons_mark hstep]
      exact goParse_absent X rest _ books (List.mem_cons_self X seen) hb
    · have hfind2 : rest.find? (fun a2 => findMd5 a2.href == some X) = some a := by
        have hp2 : (findMd5 a0.href == some X) = false := by simpa using hp
        simp only [List.find?] at hfind
        rw [hp2] at hfind
        exact hfind
      have hmX : ∀ m, findMd5 a0.href = some m → m ≠ X := by
        intro m hm he
        subst he
        exact hp (by rw [hm]; exact beq_self_eq_true _)
      cases hstep : anchorStep seen a0 with
      | skip => rw [goParse_cons_skip hstep]; exact ih seen books a hX hb hfind2 hbad
      | mark m =>
        obtain ⟨hm, _, _⟩ := anchorStep_mark_elim hstep
        have hmne := hmX m hm
        rw [goParse_cons_mark hstep]
        refine ih _ books a ?_ hb hfind2 hbad
        intro hc
        rcases List.mem_cons.mp hc with h | h
        · exact hmne h.symm
        · exact hX h
      | keep m bk =>
        obtain ⟨hm, hnot, _, _, hbk⟩ := anchorStep_keep_elim hstep
        have hmne := hmX m hm
        have hbkm : bk.md5 = m := by rw [hbk]; rfl
        have hXmem : X ∉ m :: seen := by
          intro hc
          rcases List.mem_cons.mp hc with h | h
          · exact hmne h.symm
          · exact hX h
        have hb2 : ∀ b ∈ books ++ [bk], b.md5 ≠ X := by
          intro b hbb
          rcases List.mem_append.mp hbb with h | h
          · exact hb b h
          · rw [List.mem_singleton.mp h, hbkm]
            exact hmne
        rw [goParse_cons_keep hstep]
        by_cases hlen : 25 ≤ (books ++ [bk]).length
        · rw [if_pos hlen]; exact hb2
        · rw [if_neg hlen]; exact ih _ _ a hXmem hb2 hfind2 hbad

/-- Claim C10: in `_parse_search_results` the identifier is added to
`seen_md5` before the title check, so when the first anchor (in document
order, among the anchors the locator matched) carrying identifier `X` is
discarded because its derived title is shorter than 3 characters, no record
with identifier `X` is produced at all — the discarded candidate permanently
consumes its identifier for that parse pass. -/
theorem C10_consumed (doc : List Anchor) (X : List Char) (a : Anchor)
    (hfind : (doc.filter (fun a2 => (findMd5 a2.href).isSome)).find?
        (fun a2 => findMd5 a2.href == some X) = some a)
    (hbad : (deriveTitle a).length < 3) :
    X ∉ (parse_search_results doc).map Book.md5 := by
  intro hmem
  obtain ⟨b, hb, hbe⟩ := List.mem_map.mp hmem
  exact goParse_first_bad X _ [] [] a (by simp) (by simp) hfind hbad b hb hbe

/-- Witness for `C10_consumed`: the document `docC10` has two anchors with
identifier `aa`; the first has title `"ab"` (length 2) and is discarded, and
no record with identifier `aa` is produced. -/
theorem C10_consumed_witness :
    ((docC10.filter (fun a2 => (findMd5 a2.href).isSome)).find?
        (fun a2 => findMd5 a2.href == some ("aa".toList)) = some aC10bad) ∧
    (deriveTitle aC10bad).length < 3 ∧
    ("aa".toList) ∉ (parse_search_results docC10).map Book.md5 :=
  ⟨by decide, by decide,
   C10_consumed docC10 ("aa".toList) aC10bad (by decide) (by decide)⟩
